import Mathlib

/-!
Shallow embedding of the market-maker core of the 01bot repository.

Prices and sizes are modelled as exact rationals (the source uses the
arbitrary-precision `Decimal` library and its spec mandates exact decimal
arithmetic).  Each definition below is translated from a named function of
the TypeScript source; the file then proves the frozen claims about them.
-/

/-- Order side, the TypeScript union type for the string literals used in
src/types.ts. -/
inductive Side where
  | bid : Side
  | ask : Side
deriving DecidableEq, Repr

/-- A quote as in src/types.ts: side, price, size. -/
structure MMQuote where
  side : Side
  price : ℚ
  size : ℚ
deriving DecidableEq, Repr

/-- A cached live order (src/unnamed/part_002, interface CachedOrder):
orderId, side, price, size.  Order ids are modelled as naturals. -/
structure CachedOrder where
  orderId : ℕ
  side : Side
  price : ℚ
  size : ℚ
deriving DecidableEq, Repr

/-! ## Quoter (src/src/bots/mm/quoter.ts) -/

/-- Constructor arguments of class Quoter. -/
structure QuoterCfg where
  priceDecimals : ℕ
  sizeDecimals : ℕ
  spreadBps : ℚ
  takeProfitBps : ℚ
  orderSizeUsd : ℚ

/-- tickSize = 10 ^ (-priceDecimals), from the Quoter constructor. -/
def tickSize (cfg : QuoterCfg) : ℚ := 1 / 10 ^ cfg.priceDecimals

/-- lotSize = 10 ^ (-sizeDecimals), from the Quoter constructor. -/
def lotSize (cfg : QuoterCfg) : ℚ := 1 / 10 ^ cfg.sizeDecimals

/-- Quoter.alignPrice with round = "floor": floor(price / tick) * tick. -/
def floorTick (tick p : ℚ) : ℚ := (⌊p / tick⌋ : ℚ) * tick

/-- Quoter.alignPrice with round = "ceil": ceil(price / tick) * tick. -/
def ceilTick (tick p : ℚ) : ℚ := (⌈p / tick⌉ : ℚ) * tick

/-- Quoter.alignSize: floor(size / lot) * lot. -/
def alignSize (lot s : ℚ) : ℚ := (⌊s / lot⌋ : ℚ) * lot

/-! ## PositionTracker state (src/src/bots/mm/position.ts) -/

/-- interface PositionState. -/
structure PositionState where
  sizeBase : ℚ
  sizeUsd : ℚ
  isLong : Bool
  isCloseMode : Bool
deriving DecidableEq, Repr

/-- interface QuotingContext. -/
structure QuotingContext where
  fairPrice : ℚ
  positionState : PositionState
  allowedSides : List Side
deriving DecidableEq, Repr

/-- PositionTracker.getState: sizeUsd = sizeBase * fairPrice,
isLong = sizeBase > 0, isCloseMode = |sizeUsd| >= closeThresholdUsd. -/
def getState (closeThresholdUsd baseSize fairPrice : ℚ) : PositionState :=
  let sizeUsd := baseSize * fairPrice
  { sizeBase := baseSize
    sizeUsd := sizeUsd
    isLong := decide (0 < baseSize)
    isCloseMode := decide (closeThresholdUsd ≤ |sizeUsd|) }

/-- PositionTracker.getAllowedSides: in close mode only the reducing side,
otherwise both sides. -/
def getAllowedSides (state : PositionState) : List Side :=
  if state.isCloseMode then
    if state.isLong then [Side.ask] else [Side.bid]
  else
    [Side.bid, Side.ask]

/-- PositionTracker.getQuotingContext. -/
def getQuotingContext (closeThresholdUsd baseSize fairPrice : ℚ) :
    QuotingContext :=
  let positionState := getState closeThresholdUsd baseSize fairPrice
  { fairPrice := fairPrice
    positionState := positionState
    allowedSides := getAllowedSides positionState }

/-! ## Quoter.getQuotes -/

/-- Best bid / best ask (interface BBO in src/unnamed/part_003). -/
structure BBO where
  bestBid : ℚ
  bestAsk : ℚ
deriving DecidableEq, Repr

/-- spreadAmount = fair * bps / 10000 with bps chosen by close mode. -/
def spreadAmount (cfg : QuoterCfg) (ctx : QuotingContext) : ℚ :=
  ctx.fairPrice *
    (if ctx.positionState.isCloseMode then cfg.takeProfitBps else cfg.spreadBps)
    / 10000

/-- The size chosen in Quoter.getQuotes: alignSize |sizeBase| in close mode,
usdToSize (= alignSize (usd / fair)) in normal mode. -/
def quoteSize (cfg : QuoterCfg) (ctx : QuotingContext) : ℚ :=
  if ctx.positionState.isCloseMode then
    alignSize (lotSize cfg) |ctx.positionState.sizeBase|
  else
    alignSize (lotSize cfg) (cfg.orderSizeUsd / ctx.fairPrice)

/-- The tick-aligned raw bid price before the no-cross clamp. -/
def rawBid (cfg : QuoterCfg) (ctx : QuotingContext) : ℚ :=
  floorTick (tickSize cfg) (ctx.fairPrice - spreadAmount cfg ctx)

/-- The tick-aligned raw ask price before the no-cross clamp. -/
def rawAsk (cfg : QuoterCfg) (ctx : QuotingContext) : ℚ :=
  ceilTick (tickSize cfg) (ctx.fairPrice + spreadAmount cfg ctx)

/-- The bid price after the no-cross clamp against the BBO. -/
def clampBid (cfg : QuoterCfg) (ctx : QuotingContext) (bbo : Option BBO) : ℚ :=
  match bbo with
  | some b =>
      if b.bestAsk ≤ rawBid cfg ctx then
        floorTick (tickSize cfg) (b.bestAsk - tickSize cfg)
      else rawBid cfg ctx
  | none => rawBid cfg ctx

/-- The ask price after the no-cross clamp against the BBO. -/
def clampAsk (cfg : QuoterCfg) (ctx : QuotingContext) (bbo : Option BBO) : ℚ :=
  match bbo with
  | some b =>
      if rawAsk cfg ctx ≤ b.bestBid then
        ceilTick (tickSize cfg) (b.bestBid + tickSize cfg)
      else rawAsk cfg ctx
  | none => rawAsk cfg ctx

/-- Quoter.getQuotes: empty when the size is ≤ 0, otherwise at most one
quote per allowed side, clamped against the BBO and dropped when ≤ 0. -/
def getQuotes (cfg : QuoterCfg) (ctx : QuotingContext) (bbo : Option BBO) :
    List MMQuote :=
  if quoteSize cfg ctx ≤ 0 then []
  else
    (if Side.bid ∈ ctx.allowedSides then
      if 0 < clampBid cfg ctx bbo then
        [⟨Side.bid, clampBid cfg ctx bbo, quoteSize cfg ctx⟩]
      else []
    else []) ++
    (if Side.ask ∈ ctx.allowedSides then
      if 0 < clampAsk cfg ctx bbo then
        [⟨Side.ask, clampAsk cfg ctx bbo, quoteSize cfg ctx⟩]
      else []
    else [])

example :
    getQuotes ⟨2, 4, 10, 5, 100⟩ (getQuotingContext 10 0 100000)
      (some ⟨99950, 99990⟩) =
    [⟨Side.bid, 99900, 1/1000⟩, ⟨Side.ask, 100100, 1/1000⟩] := by
  norm_num [getQuotes, getQuotingContext, getState, getAllowedSides, quoteSize,
    clampBid, clampAsk, rawBid, rawAsk, spreadAmount, alignSize, floorTick,
    ceilTick, tickSize, lotSize]

/-! ## Re-quote guard (src/src/bots/mm/index.ts, MarketMaker) -/

/-- The two thresholds read by MarketMaker.applyRequoteGuard. -/
structure GuardCfg where
  requoteThresholdBps : ℚ
  minOrderAgeMs : ℤ

/-- MarketMaker.priceDiffBps: |a - b| / ((|a| + |b|) / 2) * 10000, with 0
returned when the denominator is ≤ 0. -/
def priceDiffBps (a b : ℚ) : ℚ :=
  let denom := (|a| + |b|) / 2
  if denom ≤ 0 then 0 else |a - b| / denom * 10000

/-- The first live order on a given side (the currentBySide map in
applyRequoteGuard keeps the first occurrence per side). -/
def firstBySide (orders : List CachedOrder) (s : Side) : Option CachedOrder :=
  orders.find? (fun o => decide (o.side = s))

/-- MarketMaker.refreshOrderAges: first-seen timestamps as a map from order
id to milliseconds; ids now live get the current time if absent, ids no
longer live are pruned. -/
def refreshOrderAges (fs : ℕ → Option ℤ) (orders : List CachedOrder)
    (now : ℤ) : ℕ → Option ℤ :=
  fun id =>
    if orders.any (fun o => decide (o.orderId = id)) then
      some ((fs id).getD now)
    else none

/-- The body of the map in MarketMaker.applyRequoteGuard for one proposed
quote, given a first-seen map. -/
def guardQuote (cfg : GuardCfg) (now : ℤ) (fs : ℕ → Option ℤ)
    (orders : List CachedOrder) (q : MMQuote) : MMQuote :=
  match firstBySide orders q.side with
  | none => q
  | some existing =>
      if now - ((fs existing.orderId).getD now) < cfg.minOrderAgeMs ∨
          priceDiffBps existing.price q.price ≤ cfg.requoteThresholdBps then
        { q with price := existing.price, size := existing.size }
      else q

/-- One proposed quote through applyRequoteGuard: the guard first refreshes
the order ages, then maps guardQuote over the quotes. -/
def requoteGuardStep (cfg : GuardCfg) (now : ℤ) (fs : ℕ → Option ℤ)
    (orders : List CachedOrder) (q : MMQuote) : MMQuote :=
  guardQuote cfg now (refreshOrderAges fs orders now) orders q

/-- MarketMaker.applyRequoteGuard. -/
def applyRequoteGuard (cfg : GuardCfg) (now : ℤ) (fs : ℕ → Option ℤ)
    (orders : List CachedOrder) (quotes : List MMQuote) : List MMQuote :=
  quotes.map (requoteGuardStep cfg now fs orders)

/-! ## Fair-price estimator (src/src/bots/mm/index.ts, FairPriceCalculator) -/

/-- interface OffsetSample: offset = local_mid - ref_mid, unix second. -/
structure OffsetSample where
  offset : ℚ
  second : ℤ
deriving DecidableEq, Repr

/-- interface FairPriceConfig. -/
structure FairCfg where
  windowMs : ℤ
  minSamples : ℕ

/-- The cutoff second Math.floor((Date.now() - windowMs) / 1000) computed in
FairPriceCalculator.getValidSamples. -/
def cutoffSecond (nowMs windowMs : ℤ) : ℤ := Int.fdiv (nowMs - windowMs) 1000

/-- FairPriceCalculator.getValidSamples: samples with second strictly
greater than the cutoff.  The circular buffer contents are modelled as the
list of its stored samples. -/
def getValidSamples (cfg : FairCfg) (nowMs : ℤ)
    (samples : List OffsetSample) : List OffsetSample :=
  samples.filter (fun s => decide (cutoffSecond nowMs cfg.windowMs < s.second))

/-- Ascending sort of offsets, sort((a, b) => a - b) in the source. -/
def sortOffsets (l : List ℚ) : List ℚ := l.insertionSort (· ≤ ·)

/-- The median computation shared by getMedianOffset and
getRawMedianOffset: sort ascending, take the middle element, or the mean of
the two middle elements when the count is even. -/
def medianList (l : List ℚ) : ℚ :=
  if (sortOffsets l).length % 2 = 0 then
    ((sortOffsets l).getD ((sortOffsets l).length / 2 - 1) 0 +
      (sortOffsets l).getD ((sortOffsets l).length / 2) 0) / 2
  else (sortOffsets l).getD ((sortOffsets l).length / 2) 0

/-- FairPriceCalculator.getMedianOffset: null when fewer than minSamples
valid samples, otherwise the median of the valid offsets. -/
def getMedianOffset (cfg : FairCfg) (nowMs : ℤ)
    (samples : List OffsetSample) : Option ℚ :=
  if (getValidSamples cfg nowMs samples).length < cfg.minSamples then none
  else
    some (medianList ((getValidSamples cfg nowMs samples).map
      OffsetSample.offset))

/-- FairPriceCalculator.getRawMedianOffset: ignores minSamples, null only
when there are no valid samples. -/
def getRawMedianOffset (cfg : FairCfg) (nowMs : ℤ)
    (samples : List OffsetSample) : Option ℚ :=
  if (getValidSamples cfg nowMs samples).length = 0 then none
  else
    some (medianList ((getValidSamples cfg nowMs samples).map
      OffsetSample.offset))

/-- FairPriceCalculator.getFairPrice: reference mid plus the median offset,
null when the offset is null. -/
def getFairPrice (cfg : FairCfg) (nowMs : ℤ) (samples : List OffsetSample)
    (referenceMid : ℚ) : Option ℚ :=
  match getMedianOffset cfg nowMs samples with
  | none => none
  | some offset => some (referenceMid + offset)

/-! ## Local orderbook stream (src/unnamed/part_003, ZoOrderbookStream) -/

/-- An orderbook entry (price, size) after normalizeEntries. -/
structure ObEntry where
  price : ℚ
  size : ℚ
deriving DecidableEq, Repr

/-- The levels Map of class OrderbookSide, modelled as an association list
in insertion order (JS Map iteration order). -/
abbrev LevelMap := List (ℚ × ℚ)

/-- Map.has. -/
def levelsHas (m : LevelMap) (k : ℚ) : Bool :=
  m.any (fun p => decide (p.1 = k))

/-- Map.set: update in place when present, append otherwise. -/
def levelsSet (m : LevelMap) (k v : ℚ) : LevelMap :=
  if levelsHas m k then
    m.map (fun p => if p.1 = k then (k, v) else p)
  else m ++ [(k, v)]

/-- Map.delete. -/
def levelsDelete (m : LevelMap) (k : ℚ) : LevelMap :=
  m.filter (fun p => decide (p.1 ≠ k))

/-- MAX_LEVELS from src/unnamed/part_003. -/
def MAX_LEVELS : ℕ := 100

/-- class OrderbookSide: levels map plus the derived sortedPrices cache. -/
structure OrderbookSide where
  isAsk : Bool
  levels : LevelMap
  sortedPrices : List ℚ
deriving DecidableEq, Repr

/-- OrderbookSide.rebuildSortedPrices: sort the keys (ascending for asks,
descending for bids), trim to MAX_LEVELS and drop the trimmed levels. -/
def rebuildSortedPrices (s : OrderbookSide) : OrderbookSide :=
  let ps := s.levels.map Prod.fst
  let sorted :=
    if s.isAsk then ps.insertionSort (· ≤ ·) else ps.insertionSort (· ≥ ·)
  let kept := sorted.take MAX_LEVELS
  let removed := sorted.drop MAX_LEVELS
  { s with
    sortedPrices := kept
    levels := removed.foldl levelsDelete s.levels }

/-- OrderbookSide.applyDeltas: size = 0 deletes the level, a non-zero size
sets the absolute level size; the sorted cache is rebuilt only when a key
was added or removed. -/
def sideApplyDeltas (s : OrderbookSide) (entries : List ObEntry) :
    OrderbookSide :=
  let step := fun (acc : LevelMap × Bool) (e : ObEntry) =>
    if e.size = 0 then
      if levelsHas acc.1 e.price then (levelsDelete acc.1 e.price, true)
      else acc
    else
      (levelsSet acc.1 e.price e.size, acc.2 || !levelsHas acc.1 e.price)
  let r := entries.foldl step (s.levels, false)
  if r.2 then rebuildSortedPrices { s with levels := r.1 }
  else { s with levels := r.1 }

/-- OrderbookSide.setSnapshot: clear, insert positive-size entries,
rebuild. -/
def sideSetSnapshot (s : OrderbookSide) (entries : List ObEntry) :
    OrderbookSide :=
  let levels := entries.foldl
    (fun (m : LevelMap) e => if 0 < e.size then levelsSet m e.price e.size else m)
    []
  rebuildSortedPrices { s with levels := levels, sortedPrices := [] }

/-- A WebSocket delta message: optional update_id plus bid and ask entry
lists (already normalized). -/
structure DeltaMsg where
  update_id : Option ℕ
  bids : List ObEntry
  asks : List ObEntry
deriving DecidableEq, Repr

/-- The book-relevant state of class ZoOrderbookStream. -/
structure ObState where
  bids : OrderbookSide
  asks : OrderbookSide
  lastUpdateId : ℕ
  snapshotLoaded : Bool
deriving DecidableEq, Repr

/-- ZoOrderbookStream.resetState (book-relevant fields). -/
def obResetState : ObState :=
  { bids := ⟨false, [], []⟩
    asks := ⟨true, [], []⟩
    lastUpdateId := 0
    snapshotLoaded := false }

/-- ZoOrderbookStream.handleUpdate: ignore before the snapshot, drop deltas
whose update_id is defined and ≤ lastUpdateId, advance lastUpdateId when
defined, then apply the bid and ask deltas. -/
def obHandleUpdate (s : ObState) (d : DeltaMsg) : ObState :=
  if s.snapshotLoaded = false then s
  else if d.update_id.any (fun id => decide (id ≤ s.lastUpdateId)) then s
  else
    match d.update_id with
    | some id =>
        { s with
          lastUpdateId := id
          bids := sideApplyDeltas s.bids d.bids
          asks := sideApplyDeltas s.asks d.asks }
    | none =>
        { s with
          bids := sideApplyDeltas s.bids d.bids
          asks := sideApplyDeltas s.asks d.asks }

/-- The filter of ZoOrderbookStream.applyBufferedDeltas: keep buffered
deltas with a defined update_id strictly above the current lastUpdateId
(the snapshot's update id at that point). -/
def validBufferedDeltas (s : ObState) (buffer : List DeltaMsg) :
    List DeltaMsg :=
  buffer.filter (fun d => d.update_id.any (fun id => decide (s.lastUpdateId < id)))

/-- ZoOrderbookStream.applyBufferedDeltas: filter once against the current
lastUpdateId, then run handleUpdate over the survivors. -/
def applyBufferedDeltas (s : ObState) (buffer : List DeltaMsg) : ObState :=
  (validBufferedDeltas s buffer).foldl obHandleUpdate s

/-- ZoOrderbookStream.fetchSnapshot (state transition part): load both
sides, set lastUpdateId to the snapshot's updateId, mark snapshotLoaded. -/
def obLoadSnapshot (s : ObState) (snapBids snapAsks : List ObEntry)
    (updateId : ℕ) : ObState :=
  { bids := sideSetSnapshot s.bids snapBids
    asks := sideSetSnapshot s.asks snapAsks
    lastUpdateId := updateId
    snapshotLoaded := true }

/-- ZoOrderbookStream.connect, book-state part: reset, buffer deltas, load
the snapshot, replay the buffered deltas. -/
def obConnect (snapBids snapAsks : List ObEntry) (updateId : ℕ)
    (buffer : List DeltaMsg) : ObState :=
  applyBufferedDeltas (obLoadSnapshot obResetState snapBids snapAsks updateId)
    buffer

/-! ## Atomic order planner (src/unnamed/part_002) -/

/-- orderMatchesQuote: same side, price and size. -/
def orderMatchesQuote (o : CachedOrder) (q : MMQuote) : Bool :=
  decide (o.side = q.side) && decide (o.price = q.price) && decide (o.size = q.size)

/-- The diff computed by updateQuotes before submission. -/
structure Plan where
  kept : List CachedOrder
  cancels : List CachedOrder
  places : List MMQuote
deriving DecidableEq, Repr

/-- The kept part of the diff computed by updateQuotes: each target quote
keeps its first exact (side, price, size) match among the live orders. -/
def keptOrders (currentOrders : List CachedOrder)
    (newQuotes : List MMQuote) : List CachedOrder :=
  newQuotes.filterMap
    (fun q => currentOrders.find? (fun o => orderMatchesQuote o q))

/-- The cancel list of the diff: live orders not kept. -/
def cancelList (currentOrders : List CachedOrder)
    (newQuotes : List MMQuote) : List CachedOrder :=
  currentOrders.filter
    (fun o => decide (o ∉ keptOrders currentOrders newQuotes))

/-- The place list of the diff: target quotes without an exact match. -/
def placeList (currentOrders : List CachedOrder)
    (newQuotes : List MMQuote) : List MMQuote :=
  newQuotes.filter
    (fun q => (currentOrders.find? (fun o => orderMatchesQuote o q)).isNone)

/-- The full diff. -/
def updateQuotesPlan (currentOrders : List CachedOrder)
    (newQuotes : List MMQuote) : Plan :=
  ⟨keptOrders currentOrders newQuotes, cancelList currentOrders newQuotes,
    placeList currentOrders newQuotes⟩

/-- updateQuotes (src/unnamed/part_002): when there is nothing to cancel
and nothing to place, return the current orders unchanged; otherwise submit
the actions and return kept ++ placed.  The orders returned by the atomic
submission are abstracted as the placedOrders argument. -/
def updateQuotes (currentOrders : List CachedOrder) (newQuotes : List MMQuote)
    (placedOrders : List CachedOrder) : List CachedOrder :=
  if cancelList currentOrders newQuotes = [] ∧
      placeList currentOrders newQuotes = [] then currentOrders
  else keptOrders currentOrders newQuotes ++ placedOrders

/-- Equality of the (side, price, size) tuple sets of a live order list and
a quote list, stated through list membership. -/
def sameTupleSet (orders : List CachedOrder) (quotes : List MMQuote) : Prop :=
  (∀ q ∈ quotes, ∃ o ∈ orders, orderMatchesQuote o q) ∧
  (∀ o ∈ orders, ∃ q ∈ quotes, orderMatchesQuote o q)

/-! ## Account stream (src/unnamed/part_003, AccountStream) -/

/-- interface TrackedOrder (per-id fields; the id is the map key). -/
structure TrackedOrder where
  side : Side
  price : ℚ
  size : ℚ
  marketId : ℕ
deriving DecidableEq, Repr

/-- A places-section entry of a WebSocketAccountUpdate. -/
structure PlaceInfo where
  side : Side
  price : ℚ
  current_size : ℚ
  market_id : ℕ
deriving DecidableEq, Repr

/-- A fills-section entry of a WebSocketAccountUpdate. -/
structure FillInfo where
  side : Side
  quantity : ℚ
  price : ℚ
  remaining : ℚ
  market_id : ℕ
deriving DecidableEq, Repr

/-- interface FillEvent, delivered to the onFill callback. -/
structure FillEvent where
  orderId : ℕ
  side : Side
  size : ℚ
  price : ℚ
  remaining : ℚ
  marketId : ℕ
deriving DecidableEq, Repr

/-- A WebSocketAccountUpdate: places, fills and cancels keyed by order id
(ids modelled as naturals). -/
structure AccountUpdate where
  places : List (ℕ × PlaceInfo)
  fills : List (ℕ × FillInfo)
  cancels : List ℕ

/-- The tracked-order map of AccountStream. -/
abbrev OrderMap := ℕ → Option TrackedOrder

/-- One places-section entry: insert or update the tracked order. -/
def applyPlace (m : OrderMap) (p : ℕ × PlaceInfo) : OrderMap :=
  fun id =>
    if id = p.1 then some ⟨p.2.side, p.2.price, p.2.current_size, p.2.market_id⟩
    else m id

/-- One fills-section entry, map effect only: delete the tracked order when
remaining ≤ 0, otherwise update the size of the tracked order when it
exists. -/
def applyFillMap (m : OrderMap) (f : ℕ × FillInfo) : OrderMap :=
  if f.2.remaining ≤ 0 then fun id => if id = f.1 then none else m id
  else
    match m f.1 with
    | some existing =>
        fun id => if id = f.1 then some { existing with size := f.2.remaining }
          else m id
    | none => m

/-- One cancels-section entry: delete the tracked order. -/
def applyCancel (m : OrderMap) (c : ℕ) : OrderMap :=
  fun id => if id = c then none else m id

/-- The fill events delivered by AccountStream.handleUpdate: one per fill
with quantity > 0, in order. -/
def fillEventsOf (fills : List (ℕ × FillInfo)) : List FillEvent :=
  (fills.filter (fun f => decide (0 < f.2.quantity))).map
    (fun f => ⟨f.1, f.2.side, f.2.quantity, f.2.price, f.2.remaining, f.2.market_id⟩)

/-- AccountStream.handleUpdate: places, then fills, then cancels, returning
the new tracked-order map and the delivered fill events. -/
def accountHandleUpdate (m : OrderMap) (u : AccountUpdate) :
    OrderMap × List FillEvent :=
  (u.cancels.foldl applyCancel
      (u.fills.foldl applyFillMap (u.places.foldl applyPlace m)),
    fillEventsOf u.fills)

/-! ## Helper lemmas -/

theorem tickSize_pos (cfg : QuoterCfg) : 0 < tickSize cfg := by
  unfold tickSize
  positivity

theorem floorTick_le {t : ℚ} (ht : 0 < t) (x : ℚ) : floorTick t x ≤ x := by
  unfold floorTick
  have h : (⌊x / t⌋ : ℚ) ≤ x / t := Int.floor_le (x / t)
  calc (⌊x / t⌋ : ℚ) * t ≤ (x / t) * t := mul_le_mul_of_nonneg_right h ht.le
    _ = x := div_mul_cancel₀ x ht.ne'

theorem le_ceilTick {t : ℚ} (ht : 0 < t) (x : ℚ) : x ≤ ceilTick t x := by
  unfold ceilTick
  have h : x / t ≤ (⌈x / t⌉ : ℚ) := Int.le_ceil (x / t)
  calc x = (x / t) * t := (div_mul_cancel₀ x ht.ne').symm
    _ ≤ (⌈x / t⌉ : ℚ) * t := mul_le_mul_of_nonneg_right h ht.le

theorem clampBid_lt_bestAsk (cfg : QuoterCfg) (ctx : QuotingContext) (b : BBO) :
    clampBid cfg ctx (some b) < b.bestAsk := by
  simp only [clampBid]
  split_ifs with h
  · have h1 : floorTick (tickSize cfg) (b.bestAsk - tickSize cfg) ≤
        b.bestAsk - tickSize cfg := floorTick_le (tickSize_pos cfg) _
    have h2 := tickSize_pos cfg
    linarith
  · exact lt_of_not_le h

theorem bestBid_lt_clampAsk (cfg : QuoterCfg) (ctx : QuotingContext) (b : BBO) :
    b.bestBid < clampAsk cfg ctx (some b) := by
  simp only [clampAsk]
  split_ifs with h
  · have h1 : b.bestBid + tickSize cfg ≤
        ceilTick (tickSize cfg) (b.bestBid + tickSize cfg) :=
      le_ceilTick (tickSize_pos cfg) _
    have h2 := tickSize_pos cfg
    linarith
  · exact lt_of_not_le h

theorem mem_getQuotes {cfg : QuoterCfg} {ctx : QuotingContext}
    {bbo : Option BBO} {qt : MMQuote} (hqt : qt ∈ getQuotes cfg ctx bbo) :
    (qt = ⟨Side.bid, clampBid cfg ctx bbo, quoteSize cfg ctx⟩) ∨
    (qt = ⟨Side.ask, clampAsk cfg ctx bbo, quoteSize cfg ctx⟩) := by
  unfold getQuotes at hqt
  split_ifs at hqt <;> simp_all

/-! ## Concrete fixtures (spec scenarios 1 and 2) -/

/-- Quoter config of spec scenario 1: tick 0.01, lot 0.0001, spread 10 bps,
take-profit 5 bps, order size 100 USD. -/
def exCfg : QuoterCfg := ⟨2, 4, 10, 5, 100⟩

/-- Normal-mode context: flat position, close threshold 10, fair 100000. -/
def exCtxNormal : QuotingContext := getQuotingContext 10 0 100000

/-- BBO of spec scenario 2 needing no clamp. -/
def exBBO : BBO := ⟨99950, 99990⟩

/-- BBO of spec scenario 2 with best_ask 99895, forcing the bid clamp. -/
def exBBOCross : BBO := ⟨99950, 99895⟩

/-- Degenerate close-mode context with a flat position, so the aligned
quote size is 0. -/
def exCtxTiny : QuotingContext := getQuotingContext 0 0 100

/-! ## Claims C1, C2, C3 -/

/-- Claim C1: for every call to Quoter.getQuotes with a known BBO, every
emitted bid quote has price strictly less than best_ask and every emitted
ask quote has price strictly greater than best_bid; when the tick-aligned
raw bid is ≥ best_ask it is replaced by floor_tick(best_ask − tick), and
when the raw ask is ≤ best_bid it is replaced by
ceil_tick(best_bid + tick). -/
theorem quoter_no_cross (cfg : QuoterCfg) (ctx : QuotingContext) (b : BBO) :
    (∀ qt ∈ getQuotes cfg ctx (some b),
        (qt.side = Side.bid → qt.price < b.bestAsk) ∧
        (qt.side = Side.ask → b.bestBid < qt.price)) ∧
    (b.bestAsk ≤ rawBid cfg ctx →
        clampBid cfg ctx (some b) =
          floorTick (tickSize cfg) (b.bestAsk - tickSize cfg)) ∧
    (rawAsk cfg ctx ≤ b.bestBid →
        clampAsk cfg ctx (some b) =
          ceilTick (tickSize cfg) (b.bestBid + tickSize cfg)) := by
  refine ⟨?_, ?_, ?_⟩
  · intro qt hqt
    rcases mem_getQuotes hqt with h | h <;> subst h <;> refine ⟨?_, ?_⟩
    · intro _
      exact clampBid_lt_bestAsk cfg ctx b
    · intro h
      simp at h
    · intro h
      simp at h
    · intro _
      exact bestBid_lt_clampAsk cfg ctx b
  · intro h
    simp only [clampBid]
    rw [if_pos h]
  · intro h
    simp only [clampAsk]
    rw [if_pos h]

/-- Witness for quoter_no_cross at spec scenario 2: with best_ask 99895 the
raw bid 99900 crosses and is clamped to floor_tick(99895 − 0.01). -/
theorem quoter_no_cross_witness :
    exBBOCross.bestAsk ≤ rawBid exCfg exCtxNormal ∧
    clampBid exCfg exCtxNormal (some exBBOCross) =
      floorTick (tickSize exCfg) (exBBOCross.bestAsk - tickSize exCfg) := by
  have hcross : exBBOCross.bestAsk ≤ rawBid exCfg exCtxNormal := by
    norm_num [exBBOCross, exCfg, exCtxNormal, rawBid, floorTick, spreadAmount,
      tickSize, getQuotingContext, getState]
  exact ⟨hcross, (quoter_no_cross exCfg exCtxNormal exBBOCross).2.1 hcross⟩

example : clampBid exCfg exCtxNormal (some exBBOCross) = 99894.99 := by
  norm_num [exBBOCross, exCfg, exCtxNormal, clampBid, rawBid, floorTick,
    spreadAmount, tickSize, getQuotingContext, getState]

/-- Claim C2: with fair 100000, spread 10 bps, order size 100 USD, tick
0.01, lot 0.0001, both sides allowed and no clamp needed, getQuotes returns
exactly the bid 99900.00 × 0.0010 and the ask 100100.00 × 0.0010; and in
every call the size is align_lot of the close-mode or normal-mode formula,
with an empty result when that size is ≤ 0. -/
theorem quoter_scenario_and_size (cfg : QuoterCfg) (ctx : QuotingContext)
    (bbo : Option BBO) :
    (getQuotes exCfg exCtxNormal (some exBBO) =
      [⟨Side.bid, 99900, 1/1000⟩, ⟨Side.ask, 100100, 1/1000⟩]) ∧
    (quoteSize cfg ctx =
      if ctx.positionState.isCloseMode then
        alignSize (lotSize cfg) |ctx.positionState.sizeBase|
      else alignSize (lotSize cfg) (cfg.orderSizeUsd / ctx.fairPrice)) ∧
    (quoteSize cfg ctx ≤ 0 → getQuotes cfg ctx bbo = []) ∧
    (∀ qt ∈ getQuotes cfg ctx bbo, qt.size = quoteSize cfg ctx) := by
  refine ⟨?_, rfl, ?_, ?_⟩
  · norm_num [getQuotes, exCfg, exCtxNormal, exBBO, getQuotingContext,
      getState, getAllowedSides, quoteSize, clampBid, clampAsk, rawBid,
      rawAsk, spreadAmount, alignSize, floorTick, ceilTick, tickSize, lotSize]
  · intro h
    unfold getQuotes
    rw [if_pos h]
  · intro qt hqt
    rcases mem_getQuotes hqt with h | h <;> subst h <;> rfl

/-- Witness for quoter_scenario_and_size: a close-mode context with a flat
position yields size 0 and hence no quotes. -/
theorem quoter_scenario_and_size_witness :
    getQuotes exCfg exCtxTiny none = [] :=
  (quoter_scenario_and_size exCfg exCtxTiny none).2.2.1 (by
    norm_num [quoteSize, exCfg, exCtxTiny, getQuotingContext, getState,
      alignSize, lotSize])

/-- Claim C3: isCloseMode holds exactly when |size_base × fair_price| is at
least close_threshold_usd (so notional exactly at the threshold is close
mode), and allowed_sides is [ask] in close mode when long, [bid] in close
mode when not long, and [bid, ask] otherwise. -/
theorem position_close_mode (th base fair : ℚ) :
    ((getState th base fair).isCloseMode = true ↔ th ≤ |base * fair|) ∧
    ((getQuotingContext th base fair).allowedSides =
      if th ≤ |base * fair| then
        (if 0 < base then [Side.ask] else [Side.bid])
      else [Side.bid, Side.ask]) := by
  constructor
  · simp [getState]
  · by_cases hc : th ≤ |base * fair| <;> by_cases hl : 0 < base <;>
      simp [getQuotingContext, getAllowedSides, getState, hc, hl]

/-- Witness for position_close_mode at the boundary: a long position whose
notional is exactly the close threshold is in close mode and may only
quote the ask side. -/
theorem position_close_mode_witness :
    (getState 10 (1/10000) 100000).isCloseMode = true ∧
    (getQuotingContext 10 (1/10000) 100000).allowedSides = [Side.ask] := by
  constructor
  · exact (position_close_mode 10 (1/10000) 100000).1.mpr (by norm_num)
  · have h := (position_close_mode 10 (1/10000) 100000).2
    rw [h, if_pos (by norm_num), if_pos (by norm_num)]

/-! ## Claims C4 and C8 -/

/-- Guard fixtures of spec scenario 4: live bid at 99900 first seen at time
0, threshold 3 bps, minimum age 10000 ms. -/
def gCfg : GuardCfg := ⟨3, 10000⟩

/-- The live bid order of spec scenario 4. -/
def gOrder : CachedOrder := ⟨1, Side.bid, 99900, 1/1000⟩

/-- The live order list of spec scenario 4. -/
def gOrders : List CachedOrder := [gOrder]

/-- First-seen map: every id first seen at time 0. -/
def gFs : ℕ → Option ℤ := fun _ => some 0

/-- The proposed bid of spec scenario 4, shifted to 99901. -/
def gQuote : MMQuote := ⟨Side.bid, 99901, 1/1000⟩

/-- Claim C4: a proposed quote with a same-side live order is replaced by
the live order's price and size exactly when age_ms < min_order_age_ms or
diff_bps ≤ requote_threshold_bps, where age_ms = now − first_seen_ms and
diff_bps = |a − b| / ((|a| + |b|) / 2) × 10000; otherwise, or with no
same-side live order, the proposed quote stands unchanged. -/
theorem requote_guard_rule (cfg : GuardCfg) (now : ℤ) (fs : ℕ → Option ℤ)
    (orders : List CachedOrder) (q : MMQuote) :
    (firstBySide orders q.side = none →
      requoteGuardStep cfg now fs orders q = q) ∧
    (∀ existing, firstBySide orders q.side = some existing →
      requoteGuardStep cfg now fs orders q =
        if now - ((refreshOrderAges fs orders now existing.orderId).getD now) <
              cfg.minOrderAgeMs ∨
            priceDiffBps existing.price q.price ≤ cfg.requoteThresholdBps then
          { q with price := existing.price, size := existing.size }
        else q) := by
  constructor
  · intro h
    unfold requoteGuardStep guardQuote
    rw [h]
  · intro existing h
    unfold requoteGuardStep guardQuote
    rw [h]

/-- Witness for requote_guard_rule at spec scenario 4: the live bid is
2000 ms old, fresher than min_order_age_ms = 10000, so the proposed bid is
replaced by the live order's price and size. -/
theorem requote_guard_rule_witness :
    requoteGuardStep gCfg 2000 gFs gOrders gQuote =
      { gQuote with price := gOrder.price, size := gOrder.size } := by
  have hfb : firstBySide gOrders gQuote.side = some gOrder := by
    simp [firstBySide, gOrders, gOrder, gQuote]
  have hage : (2000 : ℤ) -
      ((refreshOrderAges gFs gOrders 2000 gOrder.orderId).getD 2000) <
      gCfg.minOrderAgeMs := by
    simp [refreshOrderAges, gFs, gOrders, gOrder, gCfg]
  rw [(requote_guard_rule gCfg 2000 gFs gOrders gQuote).2 gOrder hfb,
    if_pos (Or.inl hage)]

/-- Claim C8: the re-quote guard is monotone in its thresholds: a proposed
quote that stands (is returned unchanged, causing a replacement) under
(requote_threshold_bps, min_order_age_ms) also stands under any smaller
thresholds, both per quote and for the whole filtered list. -/
theorem requote_guard_monotone (c1 c2 : GuardCfg) (now : ℤ)
    (fs : ℕ → Option ℤ) (orders : List CachedOrder)
    (hth : c2.requoteThresholdBps ≤ c1.requoteThresholdBps)
    (hage : c2.minOrderAgeMs ≤ c1.minOrderAgeMs) :
    (∀ q : MMQuote, requoteGuardStep c1 now fs orders q = q →
      requoteGuardStep c2 now fs orders q = q) ∧
    (∀ quotes : List MMQuote,
      applyRequoteGuard c1 now fs orders quotes = quotes →
      applyRequoteGuard c2 now fs orders quotes = quotes) := by
  have key : ∀ q : MMQuote, requoteGuardStep c1 now fs orders q = q →
      requoteGuardStep c2 now fs orders q = q := by
    intro q h1
    unfold requoteGuardStep guardQuote at h1 ⊢
    cases hfb : firstBySide orders q.side with
    | none => rfl
    | some ex =>
        dsimp only at h1 ⊢
        by_cases hc2 : now -
              ((refreshOrderAges fs orders now ex.orderId).getD now) <
              c2.minOrderAgeMs ∨
            priceDiffBps ex.price q.price ≤ c2.requoteThresholdBps
        · have hc1 : now -
                ((refreshOrderAges fs orders now ex.orderId).getD now) <
                c1.minOrderAgeMs ∨
              priceDiffBps ex.price q.price ≤ c1.requoteThresholdBps := by
            rcases hc2 with h | h
            · exact Or.inl (lt_of_lt_of_le h hage)
            · exact Or.inr (le_trans h hth)
          rw [hfb] at h1
          dsimp only at h1
          rw [if_pos hc1] at h1
          rw [if_pos hc2]
          exact h1
        · rw [if_neg hc2]
  refine ⟨key, ?_⟩
  intro quotes h
  unfold applyRequoteGuard at h ⊢
  induction quotes with
  | nil => rfl
  | cons q qs ih =>
      simp only [List.map_cons, List.cons.injEq] at h ⊢
      exact ⟨key q h.1, ih h.2⟩

/-! ## Claim C6 -/

/-- Fair-price config: 5-minute window, 3 minimum samples. -/
def fCfg : FairCfg := ⟨300000, 3⟩

/-- Sample set: one sample outside the window (second 600 with cutoff 700)
and exactly minSamples = 3 samples inside it. -/
def fSamples : List OffsetSample :=
  [⟨100, 600⟩, ⟨1, 800⟩, ⟨5, 801⟩, ⟨3, 802⟩]

/-- Claim C6: getMedianOffset is non-null iff the count of samples with
second strictly above the window cutoff is at least minSamples, in which
case it is the median of their offsets; getRawMedianOffset ignores
minSamples and is null only with zero in-window samples; the sort is a
sorted permutation and an even count yields the mean of the two middle
values. -/
theorem fair_price_median (cfg : FairCfg) (nowMs : ℤ)
    (samples : List OffsetSample) :
    (getMedianOffset cfg nowMs samples = none ↔
      (getValidSamples cfg nowMs samples).length < cfg.minSamples) ∧
    (cfg.minSamples ≤ (getValidSamples cfg nowMs samples).length →
      getMedianOffset cfg nowMs samples =
        some (medianList ((getValidSamples cfg nowMs samples).map
          OffsetSample.offset))) ∧
    (getRawMedianOffset cfg nowMs samples = none ↔
      getValidSamples cfg nowMs samples = []) ∧
    (∀ l : List ℚ,
      List.Sorted (· ≤ ·) (sortOffsets l) ∧ (sortOffsets l).Perm l) ∧
    (∀ l : List ℚ, l.length % 2 = 0 →
      medianList l =
        ((sortOffsets l).getD (l.length / 2 - 1) 0 +
          (sortOffsets l).getD (l.length / 2) 0) / 2) := by
  refine ⟨?_, ?_, ?_, ?_, ?_⟩
  · unfold getMedianOffset
    split_ifs with h
    · simp [h]
    · simp [h]
  · intro h
    unfold getMedianOffset
    rw [if_neg (not_lt.mpr h)]
  · unfold getRawMedianOffset
    split_ifs with h
    · simp [List.length_eq_zero.mp h]
    · refine ⟨fun hc => (nomatch hc), fun hc => ?_⟩
      exact absurd (by rw [hc]; rfl) h
  · intro l
    exact ⟨List.sorted_insertionSort _ l, List.perm_insertionSort _ l⟩
  · intro l hl
    have hlen : (sortOffsets l).length = l.length :=
      (List.perm_insertionSort _ l).length_eq
    unfold medianList
    rw [hlen, if_pos hl]

/-- Witness for fair_price_median: with exactly minSamples = 3 in-window
samples (offsets 1, 5, 3) the median offset becomes non-null for the first
time, with value 3. -/
theorem fair_price_median_witness :
    Nat.le fCfg.minSamples (getValidSamples fCfg 1000000 fSamples).length ∧
    getMedianOffset fCfg 1000000 fSamples = some 3 := by
  have hlen : fCfg.minSamples ≤ (getValidSamples fCfg 1000000 fSamples).length := by
    decide
  refine ⟨hlen, ?_⟩
  rw [(fair_price_median fCfg 1000000 fSamples).2.1 hlen]
  norm_num [getValidSamples, fSamples, fCfg, cutoffSecond, medianList,
    sortOffsets, List.insertionSort, List.orderedInsert]

/-! ## Claims C5 and C9 -/

/-- The buffered deltas of spec scenario 5: update ids 98, 101, 103. -/
def sBuffer : List DeltaMsg :=
  [⟨some 98, [], []⟩, ⟨some 101, [], []⟩, ⟨some 103, [], []⟩]

/-- Claim C5: after the snapshot with server update id U is loaded, a
buffered delta is replayed only if its update_id > U; a delta with
update_id ≤ lastUpdateId is dropped without modifying the book; an accepted
delta with an update_id sets lastUpdateId to it; lastUpdateId is
non-decreasing; and the concrete scenario (snapshot 100, buffered deltas
98, 101, 103) applies exactly 101 and 103 and ends with lastUpdateId 103. -/
theorem orderbook_sequencing :
    (∀ (s0 : ObState) (snapBids snapAsks : List ObEntry) (updateId : ℕ)
        (buffer : List DeltaMsg) (d : DeltaMsg), d ∈ buffer →
      (d ∈ validBufferedDeltas
          (obLoadSnapshot s0 snapBids snapAsks updateId) buffer ↔
        ∃ id, d.update_id = some id ∧ updateId < id)) ∧
    (∀ (s : ObState) (d : DeltaMsg) (id : ℕ), s.snapshotLoaded = true →
      d.update_id = some id → id ≤ s.lastUpdateId → obHandleUpdate s d = s) ∧
    (∀ (s : ObState) (d : DeltaMsg) (id : ℕ), s.snapshotLoaded = true →
      d.update_id = some id → s.lastUpdateId < id →
      (obHandleUpdate s d).lastUpdateId = id) ∧
    (∀ (s : ObState) (d : DeltaMsg),
      s.lastUpdateId ≤ (obHandleUpdate s d).lastUpdateId) ∧
    (validBufferedDeltas (obLoadSnapshot obResetState [] [] 100) sBuffer =
        [⟨some 101, [], []⟩, ⟨some 103, [], []⟩] ∧
      (obConnect [] [] 100 sBuffer).lastUpdateId = 103) := by
  refine ⟨?_, ?_, ?_, ?_, ?_, ?_⟩
  · intro s0 snapBids snapAsks updateId buffer d hd
    unfold validBufferedDeltas
    rw [List.mem_filter]
    cases hid : d.update_id with
    | none => simp [Option.any, hid, hd]
    | some id => simp [Option.any, hid, hd, obLoadSnapshot]
  · intro s d id hs hid hle
    unfold obHandleUpdate
    rw [hs]
    simp only [Bool.true_eq_false, if_false]
    rw [if_pos]
    rw [hid]
    simp [hle]
  · intro s d id hs hid hlt
    unfold obHandleUpdate
    rw [hs]
    simp only [Bool.true_eq_false, if_false]
    rw [if_neg, hid]
    rw [hid]
    simp [not_le.mpr hlt]
  · intro s d
    unfold obHandleUpdate
    split_ifs with h1 h2
    · exact le_refl _
    · exact le_refl _
    · cases hid : d.update_id with
      | none => simp
      | some id =>
          rw [hid] at h2
          simp only [Option.any, decide_eq_true_eq] at h2
          simp only
          exact le_of_lt (not_le.mp h2)
  · decide
  · decide

/-- Witness for orderbook_sequencing: after the snapshot with update id
100, the buffered delta with update id 98 is dropped without modifying the
state. -/
theorem orderbook_sequencing_witness :
    obHandleUpdate (obLoadSnapshot obResetState [] [] 100)
        ⟨some 98, [], []⟩ =
      obLoadSnapshot obResetState [] [] 100 :=
  orderbook_sequencing.2.1 (obLoadSnapshot obResetState [] [] 100)
    ⟨some 98, [], []⟩ 98 rfl rfl (by decide)

/-- Claim C9: once the snapshot is loaded, a delta without an update_id is
not dropped by the staleness check — its bid and ask entries are applied to
the book — and lastUpdateId is left unchanged. -/
theorem orderbook_uid_absent (s : ObState) (d : DeltaMsg)
    (hs : s.snapshotLoaded = true) (hid : d.update_id = none) :
    obHandleUpdate s d =
      { s with
        bids := sideApplyDeltas s.bids d.bids
        asks := sideApplyDeltas s.asks d.asks } ∧
    (obHandleUpdate s d).lastUpdateId = s.lastUpdateId := by
  have h : obHandleUpdate s d =
      { s with
        bids := sideApplyDeltas s.bids d.bids
        asks := sideApplyDeltas s.asks d.asks } := by
    unfold obHandleUpdate
    rw [hs]
    simp only [Bool.true_eq_false, if_false]
    rw [if_neg, hid]
    rw [hid]
    simp [Option.any]
  exact ⟨h, by rw [h]⟩

/-- A loaded book state with one bid and one ask level. -/
def obSt : ObState := obLoadSnapshot obResetState [⟨100, 1⟩] [⟨101, 1⟩] 100

/-- A delta without an update_id carrying one bid entry. -/
def obDelta : DeltaMsg := ⟨none, [⟨99, 2⟩], []⟩

/-- Witness for orderbook_uid_absent: applying an id-less delta to the
loaded state keeps lastUpdateId at 100 while the bid entries are applied. -/
theorem orderbook_uid_absent_witness :
    obHandleUpdate obSt obDelta =
      { obSt with
        bids := sideApplyDeltas obSt.bids obDelta.bids
        asks := sideApplyDeltas obSt.asks obDelta.asks } ∧
    (obHandleUpdate obSt obDelta).lastUpdateId = 100 := by
  have h := orderbook_uid_absent obSt obDelta rfl rfl
  exact ⟨h.1, h.2⟩

/-! ## Claim C10 -/

theorem applyPlaces_isSome (ps : List (ℕ × PlaceInfo)) (m : OrderMap)
    (id : ℕ) :
    ((ps.foldl applyPlace m) id).isSome → (m id).isSome ∨ id ∈ ps.map Prod.fst := by
  induction ps generalizing m with
  | nil => exact fun h => Or.inl h
  | cons p ps ih =>
      intro h
      rcases ih (applyPlace m p) h with h' | h'
      · unfold applyPlace at h'
        by_cases hid : id = p.1
        · right
          simp [hid]
        · rw [if_neg hid] at h'
          exact Or.inl h'
      · right
        simp [h']

theorem applyPlaces_preserves (ps : List (ℕ × PlaceInfo)) (m : OrderMap)
    (id : ℕ) :
    (m id).isSome → ((ps.foldl applyPlace m) id).isSome := by
  induction ps generalizing m with
  | nil => exact fun h => h
  | cons p ps ih =>
      intro h
      refine ih (applyPlace m p) ?_
      unfold applyPlace
      by_cases hid : id = p.1
      · rw [if_pos hid]
        rfl
      · rw [if_neg hid]
        exact h

theorem applyFillMap_isSome (m : OrderMap) (f : ℕ × FillInfo) (id : ℕ) :
    ((applyFillMap m f) id).isSome → (m id).isSome := by
  unfold applyFillMap
  split_ifs with hrem
  · dsimp only
    by_cases hid : id = f.1
    · rw [if_pos hid]
      intro h
      exact absurd h (by simp)
    · rw [if_neg hid]
      exact fun h => h
  · cases hmf : m f.1 with
    | some ex =>
        dsimp only
        by_cases hid : id = f.1
        · rw [if_pos hid]
          intro _
          rw [hid, hmf]
          rfl
        · rw [if_neg hid]
          exact fun h => h
    | none => exact fun h => h

theorem applyFills_isSome (fl : List (ℕ × FillInfo)) (m : OrderMap)
    (id : ℕ) :
    ((fl.foldl applyFillMap m) id).isSome → (m id).isSome := by
  induction fl generalizing m with
  | nil => exact fun h => h
  | cons f fl ih =>
      intro h
      exact applyFillMap_isSome m f id (ih (applyFillMap m f) h)

theorem applyFills_none_reason (fl : List (ℕ × FillInfo)) (m : OrderMap)
    (id : ℕ) :
    (m id).isSome → (fl.foldl applyFillMap m) id = none →
    ∃ f ∈ fl, f.1 = id ∧ f.2.remaining ≤ 0 := by
  induction fl generalizing m with
  | nil =>
      intro hm hnone
      rw [List.foldl_nil] at hnone
      rw [hnone] at hm
      exact absurd hm (by simp)
  | cons f fl ih =>
      intro hm hnone
      by_cases hsome : ((applyFillMap m f) id).isSome
      · rcases ih (applyFillMap m f) hsome hnone with ⟨g, hg, hgi⟩
        exact ⟨g, List.mem_cons_of_mem f hg, hgi⟩
      · have hkill : (applyFillMap m f) id = none := by
          cases hk : (applyFillMap m f) id with
          | none => rfl
          | some a =>
              rw [hk] at hsome
              exact absurd rfl hsome
        unfold applyFillMap at hkill
        split_ifs at hkill with hrem
        · by_cases hid : id = f.1
          · exact ⟨f, List.mem_cons_self f fl, hid.symm, hrem⟩
          · dsimp only at hkill
            rw [if_neg hid] at hkill
            rw [hkill] at hm
            exact absurd hm (by simp)
        · cases hmf : m f.1 with
          | some ex =>
              rw [hmf] at hkill
              dsimp only at hkill
              by_cases hid : id = f.1
              · rw [if_pos hid] at hkill
                exact absurd hkill (by simp)
              · rw [if_neg hid] at hkill
                rw [hkill] at hm
                exact absurd hm (by simp)
          | none =>
              rw [hmf] at hkill
              dsimp only at hkill
              rw [hkill] at hm
              exact absurd hm (by simp)

theorem applyCancels_eq (cs : List ℕ) (m : OrderMap) (id : ℕ) :
    (cs.foldl applyCancel m) id = if id ∈ cs then none else m id := by
  induction cs generalizing m with
  | nil => simp
  | cons c cs ih =>
      rw [List.foldl_cons, ih]
      unfold applyCancel
      by_cases h1 : id ∈ cs <;> by_cases h2 : id = c <;>
        simp [h1, h2, List.mem_cons]

/-- Claim C10: a fill for an untracked order id with remaining > 0 still
delivers the fill event (when quantity > 0) but leaves the tracked-order
map unchanged; entries are removed only by cancels or fills with
remaining ≤ 0, and only the places section inserts entries. -/
theorem account_untracked_fill :
    (∀ (m : OrderMap) (oid : ℕ) (f : FillInfo), m oid = none →
        0 < f.remaining → 0 < f.quantity →
        accountHandleUpdate m ⟨[], [(oid, f)], []⟩ =
          (m, [⟨oid, f.side, f.quantity, f.price, f.remaining, f.market_id⟩])) ∧
    (∀ (m : OrderMap) (u : AccountUpdate) (id : ℕ),
        ((accountHandleUpdate m u).1 id).isSome →
        (m id).isSome ∨ id ∈ u.places.map Prod.fst) ∧
    (∀ (m : OrderMap) (u : AccountUpdate) (id : ℕ),
        (m id).isSome → (accountHandleUpdate m u).1 id = none →
        id ∈ u.cancels ∨ ∃ f ∈ u.fills, f.1 = id ∧ f.2.remaining ≤ 0) := by
  refine ⟨?_, ?_, ?_⟩
  · intro m oid f hm hrem hq
    unfold accountHandleUpdate
    simp only [List.foldl_nil, List.foldl_cons]
    have h2 : applyFillMap m (oid, f) = m := by
      unfold applyFillMap
      rw [if_neg (not_le.mpr hrem)]
      dsimp only
      rw [hm]
    rw [h2]
    unfold fillEventsOf
    simp [hq]
  · intro m u id h
    unfold accountHandleUpdate at h
    dsimp only at h
    rw [applyCancels_eq] at h
    by_cases hc : id ∈ u.cancels
    · rw [if_pos hc] at h
      exact absurd h (by simp)
    · rw [if_neg hc] at h
      exact applyPlaces_isSome u.places m id (applyFills_isSome u.fills _ id h)
  · intro m u id hm hnone
    unfold accountHandleUpdate at hnone
    dsimp only at hnone
    rw [applyCancels_eq] at hnone
    by_cases hc : id ∈ u.cancels
    · exact Or.inl hc
    · rw [if_neg hc] at hnone
      exact Or.inr (applyFills_none_reason u.fills _ id
        (applyPlaces_preserves u.places m id hm) hnone)

/-- The empty tracked-order map. -/
def emptyOrderMap : OrderMap := fun _ => none

/-- An untracked partial fill: quantity 1, remaining 2. -/
def wFill : FillInfo := ⟨Side.bid, 1, 100, 2, 0⟩

/-- Witness for account_untracked_fill: a fill for untracked id 7 with
remaining 2 emits the fill event and leaves the (empty) map unchanged. -/
theorem account_untracked_fill_witness :
    accountHandleUpdate emptyOrderMap ⟨[], [(7, wFill)], []⟩ =
      (emptyOrderMap, [⟨7, wFill.side, wFill.quantity, wFill.price,
        wFill.remaining, wFill.market_id⟩]) := by
  have h := account_untracked_fill.1 emptyOrderMap 7 wFill rfl
    (by norm_num [wFill]) (by norm_num [wFill])
  exact h

/-! ## Claim C7 -/

/-- Two live orders sharing the same (side, price, size) tuple under
distinct order ids. -/
def dupOrder1 : CachedOrder := ⟨1, Side.bid, 100, 1⟩

/-- The duplicate of dupOrder1 under another id. -/
def dupOrder2 : CachedOrder := ⟨2, Side.bid, 100, 1⟩

/-- A cached order list containing a duplicated tuple. -/
def dupOrders : List CachedOrder := [dupOrder1, dupOrder2]

/-- A single target quote with that same tuple. -/
def dupQuotes : List MMQuote := [⟨Side.bid, 100, 1⟩]

/-- Counterexample to claim C7 as stated: the target quote list and the
cached order list are equal as (side, price, size) tuple sets, yet the
diff cancels the duplicated live order (one atomic action) and the
returned cached set differs from the one given. -/
theorem updateQuotes_dup_counterexample :
    sameTupleSet dupOrders dupQuotes ∧
    cancelList dupOrders dupQuotes = [dupOrder2] ∧
    updateQuotes dupOrders dupQuotes [] ≠ dupOrders := by
  refine ⟨⟨?_, ?_⟩, ?_, ?_⟩
  · intro q hq
    refine ⟨dupOrder1, by simp [dupOrders], ?_⟩
    simp only [dupQuotes, List.mem_singleton] at hq
    subst hq
    rfl
  · intro o ho
    refine ⟨⟨Side.bid, 100, 1⟩, by simp [dupQuotes], ?_⟩
    simp only [dupOrders, List.mem_cons, List.mem_singleton] at ho
    rcases ho with h | h | h
    · subst h
      rfl
    · subst h
      rfl
    · cases h
  · rfl
  · intro h
    have : dupOrder2 ∈ updateQuotes dupOrders dupQuotes [] := by
      rw [h]
      simp [dupOrders]
    revert this
    decide

/-- The shared helper for the amended C7: with pairwise-distinct tuples in
the live set and tuple-set equality, every live order is kept. -/
theorem all_kept_of_distinct (orders : List CachedOrder)
    (quotes : List MMQuote)
    (hdist : orders.Pairwise (fun a b =>
      ¬(a.side = b.side ∧ a.price = b.price ∧ a.size = b.size)))
    (hset : sameTupleSet orders quotes) :
    ∀ o ∈ orders, o ∈ keptOrders orders quotes := by
  intro o ho
  rcases hset.2 o ho with ⟨q, hq, hmatch⟩
  have hfind : (orders.find? (fun x => orderMatchesQuote x q)).isSome := by
    rw [List.find?_isSome]
    exact ⟨o, ho, hmatch⟩
  rcases Option.isSome_iff_exists.mp hfind with ⟨o', ho'⟩
  have ho'mem : o' ∈ orders := List.mem_of_find?_eq_some ho'
  have ho'match := List.find?_some ho'
  simp only at ho'match
  have heq : o' = o := by
    by_contra hne
    have hsymm : Symmetric (fun a b : CachedOrder =>
        ¬(a.side = b.side ∧ a.price = b.price ∧ a.size = b.size)) := by
      intro a b hab hba
      exact hab ⟨hba.1.symm, hba.2.1.symm, hba.2.2.symm⟩
    have hr := hdist.forall hsymm ho'mem ho hne
    unfold orderMatchesQuote at ho'match hmatch
    simp only [Bool.and_eq_true, decide_eq_true_eq] at ho'match hmatch
    exact hr ⟨ho'match.1.1.trans hmatch.1.1.symm,
      ho'match.1.2.trans hmatch.1.2.symm,
      ho'match.2.trans hmatch.2.symm⟩
  unfold keptOrders
  rw [List.mem_filterMap]
  exact ⟨q, hq, by rw [ho', heq]⟩

/-- Claim C7 (amended): if the cached orders carry pairwise-distinct
(side, price, size) tuples and the target quotes equal them as a tuple
set, then the diff has no cancels and no places (zero atomic actions) and
updateQuotes returns the cached order list unchanged. -/
theorem updateQuotes_diff_minimal (orders : List CachedOrder)
    (quotes : List MMQuote)
    (hdist : orders.Pairwise (fun a b =>
      ¬(a.side = b.side ∧ a.price = b.price ∧ a.size = b.size)))
    (hset : sameTupleSet orders quotes) :
    cancelList orders quotes = [] ∧
    placeList orders quotes = [] ∧
    ∀ placed, updateQuotes orders quotes placed = orders := by
  have hcancels : cancelList orders quotes = [] := by
    unfold cancelList
    rw [List.filter_eq_nil_iff]
    intro o ho
    simp only [decide_eq_true_eq, Decidable.not_not]
    exact all_kept_of_distinct orders quotes hdist hset o ho
  have hplaces : placeList orders quotes = [] := by
    unfold placeList
    rw [List.filter_eq_nil_iff]
    intro q hq
    rcases hset.1 q hq with ⟨o, ho, hmatch⟩
    intro hnone
    have hfind : (orders.find? (fun x => orderMatchesQuote x q)).isSome := by
      rw [List.find?_isSome]
      exact ⟨o, ho, hmatch⟩
    rw [Option.isNone_iff_eq_none.mp hnone] at hfind
    exact absurd hfind (by simp)
  refine ⟨hcancels, hplaces, fun placed => ?_⟩
  unfold updateQuotes
  rw [if_pos ⟨hcancels, hplaces⟩]

/-- A duplicate-free cached order list matching exQuotesPair as a tuple
set. -/
def pairOrders : List CachedOrder :=
  [⟨1, Side.bid, 99900, 1⟩, ⟨2, Side.ask, 100100, 1⟩]

/-- The target quotes with exactly the tuples of pairOrders. -/
def pairQuotes : List MMQuote :=
  [⟨Side.bid, 99900, 1⟩, ⟨Side.ask, 100100, 1⟩]

/-- Witness for updateQuotes_diff_minimal: with a distinct-tuple live set
equal to the target as tuple sets, the reconcile is a no-op. -/
theorem updateQuotes_diff_minimal_witness :
    cancelList pairOrders pairQuotes = [] ∧
    placeList pairOrders pairQuotes = [] ∧
    updateQuotes pairOrders pairQuotes [] = pairOrders := by
  have h := updateQuotes_diff_minimal pairOrders pairQuotes
    (by decide) (by unfold sameTupleSet; decide)
  exact ⟨h.1, h.2.1, h.2.2 []⟩

/-- Tighter guard thresholds than gCfg. -/
def mCfgSmall : GuardCfg := ⟨1, 5000⟩

/-- A live bid at 100 for the monotonicity witness. -/
def mOrders : List CachedOrder := [⟨1, Side.bid, 100, 1⟩]

/-- A proposed bid far away from the live price. -/
def mQuotes : List MMQuote := [⟨Side.bid, 200, 1⟩]

/-- Witness for requote_guard_monotone: a quote standing under thresholds
(3 bps, 10000 ms) also stands under the smaller (1 bps, 5000 ms). -/
theorem requote_guard_monotone_witness :
    applyRequoteGuard mCfgSmall 20000 gFs mOrders mQuotes = mQuotes := by
  refine (requote_guard_monotone gCfg mCfgSmall 20000 gFs mOrders ?_ ?_).2
    mQuotes ?_
  · norm_num [gCfg, mCfgSmall]
  · decide
  · norm_num [applyRequoteGuard, requoteGuardStep, guardQuote, firstBySide,
      refreshOrderAges, priceDiffBps, mOrders, mQuotes, gFs, gCfg]
